import Mathlib

/-!
Shallow embedding of the tic-tac-toe repository's logic:
win detection (`calculateWinner`), history grouping and stats
(`groupGamesByPlayers`), pairing rename (`handleSaveEditTitle`),
record deletion (`handleDeleteGame`) and game persistence (`saveGame`),
together with theorems checking the specification's claims.
-/

namespace TicTacToe

/-- A board cell as in the source: `string | null`; `none` models `null`.
JS truthiness of a cell is: non-null and non-empty string. -/
abbrev Cell := Option String

/-- JS indexing `b[i]`: out of range or `null` both behave as falsy `none`. -/
def jsAt (b : List Cell) (i : Nat) : Cell := (b[i]?).join

/-- The 8 fixed winning triples, in the source's order:
rows, then columns, then diagonals. -/
def winLines : List (Nat × Nat × Nat) :=
  [(0, 1, 2), (3, 4, 5), (6, 7, 8), (0, 3, 6), (1, 4, 7), (2, 5, 8), (0, 4, 8), (2, 4, 6)]

/-- One step of the loop body of `calculateWinner`:
`if (b[a] && b[a] === b[b1] && b[a] === b[c]) return [b[a]!, [a, b1, c]]`. -/
def lineOutcome (b : List Cell) (t : Nat × Nat × Nat) : Option (String × List Nat) :=
  match jsAt b t.1 with
  | some s =>
    if s ≠ "" ∧ jsAt b t.2.1 = some s ∧ jsAt b t.2.2 = some s then
      some (s, [t.1, t.2.1, t.2.2])
    else none
  | none => none

/-- `calculateWinner` from the source: first winning line in the fixed order,
or `none`. -/
def calculateWinner (b : List Cell) : Option (String × List Nat) :=
  winLines.findSome? (lineOutcome b)

/-- The line `t` is completed by symbol `s`: all three cells hold the
non-empty string `s` (on boards over {empty, X, O} this means X or O). -/
def lineWonBy (b : List Cell) (t : Nat × Nat × Nat) (s : String) : Prop :=
  s ≠ "" ∧ jsAt b t.1 = some s ∧ jsAt b t.2.1 = some s ∧ jsAt b t.2.2 = some s

instance (b : List Cell) (t : Nat × Nat × Nat) (s : String) :
    Decidable (lineWonBy b t s) := by
  unfold lineWonBy; infer_instance

theorem lineOutcome_eq_none_iff (b : List Cell) (t : Nat × Nat × Nat) :
    lineOutcome b t = none ↔ ∀ s, ¬ lineWonBy b t s := by
  unfold lineOutcome lineWonBy
  rcases hb : jsAt b t.1 with _ | s0 <;> dsimp only
  · simp
  · split_ifs with hc
    · refine iff_of_false (by simp) ?_
      push_neg
      exact ⟨s0, hc.1, rfl, hc.2.1, hc.2.2⟩
    · refine iff_of_true rfl ?_
      rintro s ⟨hne, ha, hi, hcc⟩
      cases ha
      exact hc ⟨hne, hi, hcc⟩

theorem lineOutcome_eq_some (b : List Cell) (t : Nat × Nat × Nat) (s : String)
    (h : lineWonBy b t s) : lineOutcome b t = some (s, [t.1, t.2.1, t.2.2]) := by
  unfold lineWonBy at h
  obtain ⟨hne, ha, hi, hc⟩ := h
  unfold lineOutcome
  rw [ha]
  simp [hne, hi, hc]

/-- Generic fact: `findSome?` returns the image of the first element on which
`f` fires, when all earlier elements yield `none`. -/
theorem findSome_eq_of_first {α β : Type} (f : α → Option β) :
    ∀ (l : List α) (k : Nat) (x : α) (y : β),
      l[k]? = some x → f x = some y →
      (∀ j z, j < k → l[j]? = some z → f z = none) →
      l.findSome? f = some y := by
  intro l
  induction l with
  | nil => intro k x y h; simp at h
  | cons a l ih =>
    intro k x y hget hf hprev
    cases k with
    | zero =>
      simp only [List.getElem?_cons_zero, Option.some.injEq] at hget
      subst hget
      simp [List.findSome?, hf]
    | succ k =>
      have ha : f a = none := hprev 0 a (Nat.succ_pos k) (by simp)
      simp only [List.getElem?_cons_succ] at hget
      have : l.findSome? f = some y :=
        ih k x y hget hf (fun j z hj hz => hprev (j + 1) z (Nat.succ_lt_succ hj) (by simpa))
      simpa [List.findSome?, ha]

theorem findSome_eq_none_iff {α β : Type} (f : α → Option β) (l : List α) :
    l.findSome? f = none ↔ ∀ x ∈ l, f x = none := by
  induction l with
  | nil => simp [List.findSome?]
  | cons a l ih =>
    cases ha : f a with
    | some b => simp [List.findSome?, ha]
    | none => simp [List.findSome?, ha, ih]

/-- C1: over 9-cell boards whose cells are each empty, X, or O,
`calculateWinner` returns `none` exactly when no triple of the 8 fixed lines
is completed, and returns the symbol and exact index triple of the first
completed line in the fixed order otherwise; it is total with no error
conditions. -/
theorem calculateWinner_correct (b : List Cell)
    (hlen : b.length = 9)
    (hcells : ∀ c ∈ b, c = none ∨ c = some "X" ∨ c = some "O") :
    (calculateWinner b = none ↔ ∀ t ∈ winLines, ∀ s, ¬ lineWonBy b t s)
  ∧ (∀ (k : Nat) (t : Nat × Nat × Nat) (s : String),
      winLines[k]? = some t → lineWonBy b t s →
      (∀ (j : Nat) (t' : Nat × Nat × Nat) (s' : String),
        j < k → winLines[j]? = some t' → ¬ lineWonBy b t' s') →
      calculateWinner b = some (s, [t.1, t.2.1, t.2.2])) := by
  constructor
  · rw [calculateWinner, findSome_eq_none_iff]
    constructor
    · intro h t ht s hw
      exact (lineOutcome_eq_none_iff b t).mp (h t ht) s hw
    · intro h t ht
      exact (lineOutcome_eq_none_iff b t).mpr (h t ht)
  · intro k t s hget hw hprev
    exact findSome_eq_of_first (lineOutcome b) winLines k t (s, [t.1, t.2.1, t.2.2]) hget
      (lineOutcome_eq_some b t s hw)
      (fun j z hj hz => (lineOutcome_eq_none_iff b z).mpr (fun s' => hprev j z s' hj hz))

/-- Witness for C1: on the board with X across the top row,
`calculateWinner` returns X with triple `[0, 1, 2]`. -/
theorem calculateWinner_correct_witness :
    calculateWinner
      [some "X", some "X", some "X", none, none, none, none, none, none] =
      some ("X", [0, 1, 2]) :=
  (calculateWinner_correct
    [some "X", some "X", some "X", none, none, none, none, none, none]
    (by decide) (by decide)).2 0 (0, 1, 2) "X" rfl (by decide)
    (fun j z s' hj _ => absurd hj (Nat.not_lt_zero j))

/-- JS `String.prototype.trim()`: strip leading and trailing whitespace.
(Written over `String.data` by structural recursion so that concrete
instances evaluate inside the kernel.) -/
def jsTrim (s : String) : String :=
  ⟨((s.data.dropWhile Char.isWhitespace).reverse.dropWhile Char.isWhitespace).reverse⟩

/-- First index at which `sep` occurs as a prefix of a suffix of the list. -/
def findSepIdx (sep : List Char) : List Char → Option Nat
  | [] => none
  | c :: rest =>
    if sep.isPrefixOf (c :: rest) then some 0 else (findSepIdx sep rest).map (· + 1)

/-- Split at every non-overlapping occurrence of `sep`, left to right.  The
fuel argument only bounds recursion depth; `length + 1` always suffices. -/
def jsSplitList (sep : List Char) : Nat → List Char → List (List Char)
  | 0, l => [l]
  | fuel + 1, l =>
    match findSepIdx sep l with
    | none => [l]
    | some i => l.take i :: jsSplitList sep fuel (l.drop (i + sep.length))

/-- JS `String.prototype.split(sep)` for a non-empty literal separator
(empty pieces kept, `""` yielding `[""]`). -/
def jsSplitOn (s sep : String) : List String :=
  if sep.data = [] then [s]
  else (jsSplitList sep.data (s.data.length + 1) s.data).map (fun l => ⟨l⟩)

/-- Player names stored on a record, `players: { X, O }` in the source. -/
structure Players where
  X : String
  O : String
deriving DecidableEq, Repr, Inhabited

/-- A persisted game record, as built by `saveGame`. -/
structure Game where
  board : List Cell
  result : String
  players : Players
  timestamp : Int
deriving DecidableEq, Repr, Inhabited

/-- A group member as pushed by `numberedData`: the record spread together
with its `gameNumber` annotation. -/
structure NumberedGame extends Game where
  gameNumber : String
deriving DecidableEq, Repr

/-- One section of the history view: `{ title, data, stats }`.  `stats` is a
JS object literal, modelled as a key-value list in JS insertion order. -/
structure PairingGroup where
  title : String
  data : List NumberedGame
  stats : List (String × Nat)
deriving DecidableEq, Repr

/-- The grouping key `` `${X} vs ${O}` `` built from the trimmed names. -/
def gameKey (g : Game) : String :=
  jsTrim g.players.X ++ " vs " ++ jsTrim g.players.O

/-- The record with its `players` replaced by the trimmed names, as pushed
into the group by `groupGamesByPlayers`. -/
def normalizeGame (g : Game) : Game :=
  { g with players := { X := jsTrim g.players.X, O := jsTrim g.players.O } }

/-- `if (!groups[key]) groups[key] = []; groups[key].push(...)` on a JS
object whose string keys iterate in insertion order: append to the existing
entry, or add a new entry at the end. -/
def insertGame : List (String × List Game) → String → Game → List (String × List Game)
  | [], key, g => [(key, [g])]
  | (k, gs) :: rest, key, g =>
    if k = key then (k, gs ++ [g]) :: rest
    else (k, gs) :: insertGame rest key g

/-- The `groups` record after the `for` loop of `groupGamesByPlayers`. -/
def buildGroups (games : List Game) : List (String × List Game) :=
  games.foldl (fun acc g => insertGame acc (gameKey g) (normalizeGame g)) []

/-- `data.map((game, index) => ({ ...game, gameNumber: "Game " + (index+1) }))`,
written with an explicit running index. -/
def numberGames : List Game → Nat → List NumberedGame
  | [], _ => []
  | g :: rest, i =>
    { toGame := g, gameNumber := "Game " ++ toString (i + 1) } :: numberGames rest (i + 1)

/-- The `xWins` / `oWins` / `draws` counters accumulated over a group's
records, mirroring the if/else-if/else chain of the source. -/
def tallyFold (data : List Game) : Nat × Nat × Nat :=
  data.foldl
    (fun acc g =>
      if g.result = g.players.X ++ " wins" then (acc.1 + 1, acc.2.1, acc.2.2)
      else if g.result = g.players.O ++ " wins" then (acc.1, acc.2.1 + 1, acc.2.2)
      else (acc.1, acc.2.1, acc.2.2 + 1))
    (0, 0, 0)

/-- Adding one computed key to a JS object literal: an existing key is
overwritten in place, a new key is appended. -/
def jsObjInsert (obj : List (String × Nat)) (k : String) (v : Nat) : List (String × Nat) :=
  if obj.any (fun e => decide (e.1 = k)) then
    obj.map (fun e => if e.1 = k then (e.1, v) else e)
  else obj ++ [(k, v)]

/-- The `stats` object
`{ [data[0].players.X]: xWins, [data[0].players.O]: oWins, Draws: draws }`. -/
def mkStats (data : List Game) : List (String × Nat) :=
  let t := tallyFold data
  let h := (data.headD default).players
  jsObjInsert (jsObjInsert (jsObjInsert [] h.X t.1) h.O t.2.1) "Draws" t.2.2

/-- One output section built from a `groups` entry. -/
def mkGroup (title : String) (data : List Game) : PairingGroup :=
  { title := title, data := numberGames data 0, stats := mkStats data }

/-- `groupGamesByPlayers` from the source: group the stored games by the
trimmed `"X vs O"` key, number each group's records, and compute stats. -/
def groupGamesByPlayers (games : List Game) : List PairingGroup :=
  (buildGroups games).map (fun e => mkGroup e.1 e.2)

/-- `handleDeleteGame`: keep exactly the records whose timestamp differs. -/
def handleDeleteGame (games : List Game) (timestamp : Int) : List Game :=
  games.filter (fun g => decide (g.timestamp ≠ timestamp))

/-- `saveGame` from `src/unnamed/part_000`: prepend the new record, with the
player names trimmed before storage.  The stored list read back from
AsyncStorage is passed as `stored`, `Date.now()` as `now`. -/
def saveGame (playerX playerO : String) (boardState : List Cell)
    (result : String) (now : Int) (stored : List Game) : List Game :=
  { board := boardState, result := result,
    players := { X := jsTrim playerX, O := jsTrim playerO }, timestamp := now } :: stored

/-- `saveGame` from `src/app/(tabs)/index.tsx`: prepend the new record with
the route-provided names stored as-is (no trimming). -/
def saveGameIndexTsx (playerX playerO : String) (boardState : List Cell)
    (result : String) (now : Int) (stored : List Game) : List Game :=
  { board := boardState, result := result,
    players := { X := playerX, O := playerO }, timestamp := now } :: stored

/-- The three rename validation failures of `handleSaveEditTitle`, in the
order their alerts appear in the source. -/
inductive TitleError where
  | emptyTitle
  | duplicateTitle
  | malformedTitle
deriving DecidableEq, Repr

/-- `handleSaveEditTitle` from the source: validate the edited title, then
rewrite the players of every record matching `oldTitle`'s two parts.
`Except.error` models an early `return` after an alert (no store write). -/
def handleSaveEditTitle (games : List Game) (oldTitle editedTitleText : String) :
    Except TitleError (List Game) :=
  let trimmedNew := jsTrim editedTitleText
  if trimmedNew = "" then .error .emptyTitle
  else if (groupGamesByPlayers games).any
      (fun G => decide (G.title = trimmedNew ∧ G.title ≠ oldTitle)) then
    .error .duplicateTitle
  else
    let oldParts := jsSplitOn oldTitle " vs "
    let newParts := jsSplitOn trimmedNew " vs "
    let xNameNew := newParts.getD 0 ""
    let oNameNew := newParts.getD 1 ""
    if xNameNew = "" ∨ oNameNew = "" then .error .malformedTitle
    else
      .ok (games.map (fun g =>
        if jsTrim g.players.X = oldParts.getD 0 "" ∧ oldParts[1]? = some (jsTrim g.players.O)
        then { g with players := { X := jsTrim xNameNew, O := jsTrim oNameNew } }
        else g))

/-- The games state after a save-title edit: updated on success, untouched
when validation alerts and returns early. -/
def gamesAfterTitleEdit (games : List Game) (oldTitle editedTitleText : String) :
    List Game :=
  match handleSaveEditTitle games oldTitle editedTitleText with
  | .ok gs => gs
  | .error _ => games

/-- The distinct members of `l` not in `seen`, in first-seen order: the key
iteration order of a JS object populated by the grouping loop. -/
def firstSeenAux (seen : List String) : List String → List String
  | [] => []
  | k :: rest =>
    if k ∈ seen then firstSeenAux seen rest else k :: firstSeenAux (k :: seen) rest

/-- First-seen order of the distinct members of `l`. -/
def firstSeen (l : List String) : List String := firstSeenAux [] l

/-- Lookup in the `groups` association list (`groups[key]`, `[]` if absent). -/
def findGroup : List (String × List Game) → String → List Game
  | [], _ => []
  | (k, gs) :: rest, key => if k = key then gs else findGroup rest key

theorem mem_firstSeenAux :
    ∀ (l seen : List String) (x : String),
      x ∈ firstSeenAux seen l ↔ x ∈ l ∧ x ∉ seen := by
  intro l
  induction l with
  | nil => intro seen x; simp [firstSeenAux]
  | cons k rest ih =>
    intro seen x
    by_cases h : k ∈ seen
    · rw [firstSeenAux, if_pos h, ih]
      constructor
      · rintro ⟨h1, h2⟩; exact ⟨List.mem_cons_of_mem _ h1, h2⟩
      · rintro ⟨h1, h2⟩
        rcases List.mem_cons.mp h1 with rfl | h1
        · exact absurd h h2
        · exact ⟨h1, h2⟩
    · rw [firstSeenAux, if_neg h]
      by_cases hxk : x = k
      · subst hxk
        constructor
        · intro _; exact ⟨.head _, h⟩
        · intro _; exact .head _
      · rw [List.mem_cons, or_iff_right hxk, ih, List.mem_cons, or_iff_right hxk]
        simp [List.mem_cons, hxk]

theorem firstSeenAux_nodup :
    ∀ (l seen : List String), (firstSeenAux seen l).Nodup := by
  intro l
  induction l with
  | nil => intro seen; simp [firstSeenAux]
  | cons k rest ih =>
    intro seen
    by_cases h : k ∈ seen
    · rw [firstSeenAux, if_pos h]; exact ih seen
    · rw [firstSeenAux, if_neg h]
      refine List.nodup_cons.mpr ⟨?_, ih (k :: seen)⟩
      intro hk
      exact ((mem_firstSeenAux rest (k :: seen) k).mp hk).2 (.head _)

theorem firstSeenAux_congr :
    ∀ (l s1 s2 : List String), (∀ x, x ∈ s1 ↔ x ∈ s2) →
      firstSeenAux s1 l = firstSeenAux s2 l := by
  intro l
  induction l with
  | nil => intro s1 s2 _; rfl
  | cons k rest ih =>
    intro s1 s2 h
    by_cases hk : k ∈ s1
    · rw [firstSeenAux, if_pos hk, firstSeenAux, if_pos ((h k).mp hk)]
      exact ih s1 s2 h
    · rw [firstSeenAux, if_neg hk, firstSeenAux, if_neg (fun hh => hk ((h k).mpr hh))]
      refine congrArg (k :: ·) (ih (k :: s1) (k :: s2) ?_)
      intro x
      simp [List.mem_cons, h x]

theorem insertGame_keys (acc : List (String × List Game)) (k : String) (g : Game) :
    (insertGame acc k g).map Prod.fst =
      if k ∈ acc.map Prod.fst then acc.map Prod.fst else acc.map Prod.fst ++ [k] := by
  induction acc with
  | nil => simp [insertGame]
  | cons e rest ih =>
    obtain ⟨k', gs⟩ := e
    by_cases h : k' = k
    · subst h; simp [insertGame]
    · rw [insertGame, if_neg h]
      simp only [List.map_cons, ih]
      by_cases hm : k ∈ rest.map Prod.fst
      · rw [if_pos hm, if_pos (by simp [List.mem_cons, hm])]
      · rw [if_neg hm,
          if_neg (by simp only [List.map_cons, List.mem_cons]
                     push_neg
                     exact ⟨fun hh => h hh.symm, hm⟩)]
        simp

theorem findGroup_insertGame_self (acc : List (String × List Game)) (k : String) (g : Game) :
    findGroup (insertGame acc k g) k = findGroup acc k ++ [g] := by
  induction acc with
  | nil => simp [insertGame, findGroup]
  | cons e rest ih =>
    obtain ⟨k', gs⟩ := e
    by_cases h : k' = k
    · subst h; simp [insertGame, findGroup]
    · rw [insertGame, if_neg h, findGroup, if_neg h, findGroup, if_neg h, ih]

theorem findGroup_insertGame_other (acc : List (String × List Game)) (k : String)
    (g : Game) (k' : String) (h : k' ≠ k) :
    findGroup (insertGame acc k g) k' = findGroup acc k' := by
  have hne : ¬ (k = k') := fun hh => h hh.symm
  induction acc with
  | nil =>
    show findGroup [(k, [g])] k' = findGroup [] k'
    simp only [findGroup, if_neg hne]
  | cons e rest ih =>
    obtain ⟨k2, gs⟩ := e
    by_cases h2 : k2 = k
    · subst h2
      rw [insertGame, if_pos rfl, findGroup, findGroup]
      rw [if_neg hne, if_neg hne]
    · rw [insertGame, if_neg h2, findGroup, findGroup]
      by_cases h3 : k2 = k'
      · rw [if_pos h3, if_pos h3]
      · rw [if_neg h3, if_neg h3, ih]

theorem buildGroups_loop_findGroup :
    ∀ (games : List Game) (acc : List (String × List Game)) (k : String),
      findGroup (games.foldl (fun a g => insertGame a (gameKey g) (normalizeGame g)) acc) k =
        findGroup acc k ++ (games.filter (fun g => decide (gameKey g = k))).map normalizeGame := by
  intro games
  induction games with
  | nil => intro acc k; simp
  | cons g gs ih =>
    intro acc k
    rw [List.foldl_cons, ih]
    by_cases h : gameKey g = k
    · subst h
      rw [findGroup_insertGame_self]
      simp [List.filter_cons]
    · rw [findGroup_insertGame_other _ _ _ _ (fun hh => h hh.symm)]
      simp [List.filter_cons, h]

theorem buildGroups_loop_keys :
    ∀ (games : List Game) (acc : List (String × List Game)),
      (games.foldl (fun a g => insertGame a (gameKey g) (normalizeGame g)) acc).map Prod.fst =
        acc.map Prod.fst ++ firstSeenAux (acc.map Prod.fst) (games.map gameKey) := by
  intro games
  induction games with
  | nil => intro acc; simp [firstSeenAux]
  | cons g gs ih =>
    intro acc
    rw [List.foldl_cons, ih, insertGame_keys]
    by_cases h : gameKey g ∈ acc.map Prod.fst
    · rw [if_pos h]
      rw [List.map_cons, firstSeenAux, if_pos h]
    · rw [if_neg h]
      rw [List.map_cons, firstSeenAux, if_neg h]
      rw [firstSeenAux_congr (gs.map gameKey)
        ((acc.map Prod.fst) ++ [gameKey g]) (gameKey g :: acc.map Prod.fst)
        (by intro x; simp [List.mem_cons, List.mem_append, or_comm])]
      simp

theorem findGroup_of_mem :
    ∀ (acc : List (String × List Game)), (acc.map Prod.fst).Nodup →
      ∀ e ∈ acc, findGroup acc e.1 = e.2 := by
  intro acc
  induction acc with
  | nil => intro _ e he; cases he
  | cons hd rest ih =>
    obtain ⟨k, gs⟩ := hd
    intro hnd e he
    rw [List.map_cons, List.nodup_cons] at hnd
    rcases List.mem_cons.mp he with rfl | he
    · rw [findGroup, if_pos rfl]
    · rw [findGroup, if_neg ?_]
      · exact ih hnd.2 e he
      · intro hk
        apply hnd.1
        rw [hk]
        exact List.mem_map.mpr ⟨e, he, rfl⟩

theorem buildGroups_keys (games : List Game) :
    (buildGroups games).map Prod.fst = firstSeen (games.map gameKey) := by
  unfold buildGroups firstSeen
  rw [buildGroups_loop_keys]
  simp

theorem buildGroups_data (games : List Game) :
    ∀ e ∈ buildGroups games,
      e.2 = (games.filter (fun g => decide (gameKey g = e.1))).map normalizeGame := by
  intro e he
  have hnd : ((buildGroups games).map Prod.fst).Nodup := by
    rw [buildGroups_keys]; exact firstSeenAux_nodup _ _
  have h1 := findGroup_of_mem _ hnd e he
  have h2 := buildGroups_loop_findGroup games [] e.1
  unfold buildGroups at h1
  rw [h1] at h2
  simpa [findGroup] using h2

theorem numberGames_toGame :
    ∀ (d : List Game) (i : Nat), (numberGames d i).map (fun n => n.toGame) = d := by
  intro d
  induction d with
  | nil => intro i; rfl
  | cons g rest ih => intro i; simp [numberGames, ih]

theorem groupGamesByPlayers_titles (games : List Game) :
    (groupGamesByPlayers games).map PairingGroup.title = firstSeen (games.map gameKey) := by
  unfold groupGamesByPlayers
  rw [List.map_map]
  exact buildGroups_keys games

theorem groupGamesByPlayers_data (games : List Game) :
    ∀ G ∈ groupGamesByPlayers games,
      G.data.map (fun n => n.toGame) =
        (games.filter (fun g => decide (gameKey g = G.title))).map normalizeGame := by
  intro G hG
  unfold groupGamesByPlayers at hG
  rw [List.mem_map] at hG
  obtain ⟨e, he, rfl⟩ := hG
  show (numberGames e.2 0).map _ = _
  rw [numberGames_toGame]
  exact buildGroups_data games e he

theorem gameKey_of_normalize_eq {g1 g2 : Game}
    (h : normalizeGame g1 = normalizeGame g2) : gameKey g1 = gameKey g2 := by
  have hX : jsTrim g1.players.X = jsTrim g2.players.X :=
    congrArg (fun g => g.players.X) h
  have hO : jsTrim g1.players.O = jsTrim g2.players.O :=
    congrArg (fun g => g.players.O) h
  unfold gameKey
  rw [hX, hO]

theorem title_of_mem_data (games : List Game) (G : PairingGroup)
    (hG : G ∈ groupGamesByPlayers games) (g : Game)
    (hmem : normalizeGame g ∈ G.data.map (fun n => n.toGame)) :
    G.title = gameKey g := by
  rw [groupGamesByPlayers_data games G hG] at hmem
  rw [List.mem_map] at hmem
  obtain ⟨g', hg', heq⟩ := hmem
  rw [List.mem_filter] at hg'
  have hk : gameKey g' = G.title := of_decide_eq_true hg'.2
  rw [← hk]
  exact gameKey_of_normalize_eq heq

/-- C2 (amended): each record is placed in the group keyed by the exact
string `trimmedX ++ " vs " ++ trimmedO` of its trimmed player names, groups
are listed in first-seen order of their distinct keys, and two records whose
keys differ — in particular X/O-swapped records whose two orientation keys
are distinct strings — land in different groups.  (As originally stated the
swapped-records clause fails when the two orientation keys coincide as
strings, e.g. X = "p", O = "p vs p".) -/
theorem groupGamesByPlayers_grouping (games : List Game) :
    ((groupGamesByPlayers games).map PairingGroup.title = firstSeen (games.map gameKey))
  ∧ (∀ G ∈ groupGamesByPlayers games,
      G.data.map (fun n => n.toGame) =
        (games.filter (fun g => decide (gameKey g = G.title))).map normalizeGame)
  ∧ (∀ (g1 g2 : Game) (G G' : PairingGroup), g1 ∈ games → g2 ∈ games →
      gameKey g1 ≠ gameKey g2 →
      G ∈ groupGamesByPlayers games → G' ∈ groupGamesByPlayers games →
      normalizeGame g1 ∈ G.data.map (fun n => n.toGame) →
      normalizeGame g2 ∈ G'.data.map (fun n => n.toGame) →
      G ≠ G') := by
  refine ⟨groupGamesByPlayers_titles games, groupGamesByPlayers_data games, ?_⟩
  intro g1 g2 G G' _ _ hkey hG hG' hm1 hm2 hGG
  apply hkey
  rw [← title_of_mem_data games G hG g1 hm1, hGG]
  exact title_of_mem_data games G' hG' g2 hm2

/-- Counterexample to C2 as stated: the records (X="p", O="p vs p") and
(X="p vs p", O="p") have their X and O names swapped, yet both share the
key "p vs p vs p" and land in the same single group. -/
theorem grouping_swapped_collision :
    (groupGamesByPlayers
      [{ board := List.replicate 9 none, result := "Draw",
         players := { X := "p", O := "p vs p" }, timestamp := 1 },
       { board := List.replicate 9 none, result := "Draw",
         players := { X := "p vs p", O := "p" }, timestamp := 2 }]).map
      (fun G => (G.title, G.data.length)) = [("p vs p vs p", 2)] := by decide

/-- A blank 9-cell board used by concrete history examples. -/
def board9 : List Cell := List.replicate 9 none

/-- Two games with X and O swapped between distinct names. -/
def exSwapGames : List Game :=
  [{ board := board9, result := "Draw", players := { X := "Ann", O := "Bo" }, timestamp := 1 },
   { board := board9, result := "Draw", players := { X := "Bo", O := "Ann" }, timestamp := 2 }]

/-- The first group `groupGamesByPlayers` builds for `exSwapGames`. -/
def exSwapG1 : PairingGroup :=
  { title := "Ann vs Bo",
    data := [{ toGame := { board := board9, result := "Draw",
                           players := { X := "Ann", O := "Bo" }, timestamp := 1 },
               gameNumber := "Game 1" }],
    stats := [("Ann", 0), ("Bo", 0), ("Draws", 1)] }

/-- The second group `groupGamesByPlayers` builds for `exSwapGames`. -/
def exSwapG2 : PairingGroup :=
  { title := "Bo vs Ann",
    data := [{ toGame := { board := board9, result := "Draw",
                           players := { X := "Bo", O := "Ann" }, timestamp := 2 },
               gameNumber := "Game 1" }],
    stats := [("Bo", 0), ("Ann", 0), ("Draws", 1)] }

/-- Witness for C2: with distinct keys "Ann vs Bo" and "Bo vs Ann", the two
swapped records land in two different groups. -/
theorem groupGamesByPlayers_grouping_witness : exSwapG1 ≠ exSwapG2 :=
  (groupGamesByPlayers_grouping exSwapGames).2.2
    { board := board9, result := "Draw", players := { X := "Ann", O := "Bo" }, timestamp := 1 }
    { board := board9, result := "Draw", players := { X := "Bo", O := "Ann" }, timestamp := 2 }
    exSwapG1 exSwapG2 (by decide) (by decide) (by decide) (by decide) (by decide)
    (by decide) (by decide)

/-- Generic fact: flattening the lists of appended per-key filters of a
duplicate-free covering key list permutes the original list. -/
theorem filter_key_join_perm {α β : Type} [DecidableEq β] (f : α → β) :
    ∀ (ks : List β) (l : List α), ks.Nodup → (∀ a ∈ l, f a ∈ ks) →
      ((ks.map (fun k => l.filter (fun a => decide (f a = k)))).flatten).Perm l := by
  intro ks
  induction ks with
  | nil =>
    intro l _ hcov
    have : l = [] := List.eq_nil_iff_forall_not_mem.mpr (fun a ha => by simpa using hcov a ha)
    subst this
    simp
  | cons k ks ih =>
    intro l hnd hcov
    rw [List.map_cons, List.flatten_cons]
    have hnd' := List.nodup_cons.mp hnd
    have hmap : ks.map (fun k' => l.filter (fun a => decide (f a = k'))) =
        ks.map (fun k' =>
          (l.filter (fun a => ! decide (f a = k))).filter (fun a => decide (f a = k'))) := by
      apply List.map_congr_left
      intro k' hk'
      rw [List.filter_filter]
      apply List.filter_congr
      intro a _
      by_cases h : f a = k'
      · have hak : f a ≠ k := by
          intro hh
          apply hnd'.1
          rw [← hh, h]
          exact hk'
        simp [h, hak]
        exact fun hh => hak (hh ▸ h)
      · simp [h]
    rw [hmap]
    have hcov' : ∀ a ∈ l.filter (fun a => ! decide (f a = k)), f a ∈ ks := by
      intro a ha
      rw [List.mem_filter] at ha
      have hak : f a ≠ k := by simpa using ha.2
      rcases List.mem_cons.mp (hcov a ha.1) with h | h
      · exact absurd h hak
      · exact h
    have hperm := ih (l.filter (fun a => ! decide (f a = k))) hnd'.2 hcov'
    exact List.Perm.trans (hperm.append_left _) (List.filter_append_perm _ l)

theorem flatten_map_map {α β : Type} (f : α → β) (L : List (List α)) :
    (L.map (fun l => l.map f)).flatten = L.flatten.map f := by
  induction L with
  | nil => rfl
  | cons l ls ih =>
    rw [List.map_cons, List.flatten_cons, List.flatten_cons, List.map_append, ih]

/-- C9: grouping neither drops nor duplicates records — the groups' `data`
lists, stripped of the `gameNumber` annotation, form a permutation of the
normalized input, and the total record count across groups equals the input
length. -/
theorem groupGamesByPlayers_conserves (games : List Game) :
    ((groupGamesByPlayers games).map (fun G => G.data.map (fun n => n.toGame))).flatten.Perm
      (games.map normalizeGame)
  ∧ ((groupGamesByPlayers games).map (fun G => G.data.length)).sum = games.length := by
  have hlist : (groupGamesByPlayers games).map (fun G => G.data.map (fun n => n.toGame)) =
      (firstSeen (games.map gameKey)).map
        (fun t => (games.filter (fun g => decide (gameKey g = t))).map normalizeGame) := by
    rw [← groupGamesByPlayers_titles games, List.map_map]
    exact List.map_congr_left (fun G hG => groupGamesByPlayers_data games G hG)
  have hsplit : (firstSeen (games.map gameKey)).map
        (fun t => (games.filter (fun g => decide (gameKey g = t))).map normalizeGame) =
      ((firstSeen (games.map gameKey)).map
        (fun t => games.filter (fun g => decide (gameKey g = t)))).map
        (fun l => l.map normalizeGame) := by
    rw [List.map_map]
    rfl
  have hperm : ((groupGamesByPlayers games).map
      (fun G => G.data.map (fun n => n.toGame))).flatten.Perm (games.map normalizeGame) := by
    rw [hlist, hsplit, flatten_map_map]
    apply List.Perm.map
    apply filter_key_join_perm
    · exact firstSeenAux_nodup _ _
    · intro g hg
      exact (mem_firstSeenAux (games.map gameKey) [] (gameKey g)).mpr
        ⟨List.mem_map_of_mem gameKey hg, by simp⟩
  refine ⟨hperm, ?_⟩
  have h2 : (groupGamesByPlayers games).map (fun G => G.data.length) =
      ((groupGamesByPlayers games).map (fun G => G.data.map (fun n => n.toGame))).map
        List.length := by
    rw [List.map_map]
    apply List.map_congr_left
    intro G _
    simp
  rw [h2, ← List.length_flatten, hperm.length_eq, List.length_map]

/-- The records of a group, stripped of their `gameNumber` annotation. -/
def dataGames (G : PairingGroup) : List Game := G.data.map (fun n => n.toGame)

/-- Count of records whose `result` names the record's own (trimmed) X. -/
def xWinCount (data : List Game) : Nat :=
  data.countP (fun g => decide (g.result = g.players.X ++ " wins"))

/-- Count of records hitting the `else if` branch: `result` names the
record's O but not its X. -/
def oWinCount (data : List Game) : Nat :=
  data.countP (fun g =>
    decide (¬ g.result = g.players.X ++ " wins" ∧ g.result = g.players.O ++ " wins"))

/-- Count of records hitting the final `else` branch. -/
def drawCount (data : List Game) : Nat :=
  data.countP (fun g =>
    decide (¬ g.result = g.players.X ++ " wins" ∧ ¬ g.result = g.players.O ++ " wins"))

theorem xWinCount_cons_pos (g : Game) (rest : List Game)
    (hX : g.result = g.players.X ++ " wins") :
    xWinCount (g :: rest) = xWinCount rest + 1 := by
  simp [xWinCount, List.countP_cons, hX]

theorem xWinCount_cons_neg (g : Game) (rest : List Game)
    (hX : ¬ g.result = g.players.X ++ " wins") :
    xWinCount (g :: rest) = xWinCount rest := by
  simp [xWinCount, List.countP_cons, hX]

theorem oWinCount_cons (g : Game) (rest : List Game) :
    oWinCount (g :: rest) = oWinCount rest +
      (if ¬ g.result = g.players.X ++ " wins" ∧ g.result = g.players.O ++ " wins"
       then 1 else 0) := by
  simp [oWinCount, List.countP_cons]

theorem drawCount_cons (g : Game) (rest : List Game) :
    drawCount (g :: rest) = drawCount rest +
      (if ¬ g.result = g.players.X ++ " wins" ∧ ¬ g.result = g.players.O ++ " wins"
       then 1 else 0) := by
  simp [drawCount, List.countP_cons]

theorem tallyFold_loop :
    ∀ (data : List Game) (a b c : Nat),
      data.foldl
        (fun acc g =>
          if g.result = g.players.X ++ " wins" then (acc.1 + 1, acc.2.1, acc.2.2)
          else if g.result = g.players.O ++ " wins" then (acc.1, acc.2.1 + 1, acc.2.2)
          else (acc.1, acc.2.1, acc.2.2 + 1))
        (a, b, c) =
      (a + xWinCount data, b + oWinCount data, c + drawCount data) := by
  intro data
  induction data with
  | nil => intro a b c; simp [xWinCount, oWinCount, drawCount]
  | cons g rest ih =>
    intro a b c
    rw [List.foldl_cons]
    dsimp only
    by_cases hX : g.result = g.players.X ++ " wins"
    · rw [if_pos hX, ih, xWinCount_cons_pos g rest hX, oWinCount_cons, drawCount_cons,
        if_neg (fun hh => hh.1 hX), if_neg (fun hh => hh.1 hX)]
      simp only [Prod.mk.injEq]
      and_intros <;> first | rfl | trivial | omega
    · by_cases hO : g.result = g.players.O ++ " wins"
      · rw [if_neg hX, if_pos hO, ih, xWinCount_cons_neg g rest hX, oWinCount_cons,
          drawCount_cons, if_pos ⟨hX, hO⟩, if_neg (fun hh => hh.2 hO)]
        simp only [Prod.mk.injEq]
        and_intros <;> first | rfl | trivial | omega
      · rw [if_neg hX, if_neg hO, ih, xWinCount_cons_neg g rest hX, oWinCount_cons,
          drawCount_cons, if_neg (fun hh => hO hh.2), if_pos ⟨hX, hO⟩]
        simp only [Prod.mk.injEq]
        and_intros <;> first | rfl | trivial | omega

theorem mkStats_eq (data : List Game) :
    mkStats data =
      jsObjInsert (jsObjInsert (jsObjInsert []
        ((data.headD default).players.X) (xWinCount data))
        ((data.headD default).players.O) (oWinCount data))
        "Draws" (drawCount data) := by
  unfold mkStats tallyFold
  rw [tallyFold_loop]
  simp

theorem groupStats_char (games : List Game) :
    ∀ G ∈ groupGamesByPlayers games,
      G.stats =
        jsObjInsert (jsObjInsert (jsObjInsert []
          (((dataGames G).headD default).players.X) (xWinCount (dataGames G)))
          (((dataGames G).headD default).players.O) (oWinCount (dataGames G)))
          "Draws" (drawCount (dataGames G)) := by
  intro G hG
  unfold groupGamesByPlayers at hG
  rw [List.mem_map] at hG
  obtain ⟨e, he, rfl⟩ := hG
  unfold dataGames
  rw [show (mkGroup e.1 e.2).data = numberGames e.2 0 from rfl, numberGames_toGame]
  exact mkStats_eq e.2

/-- The three-game example from the specification: Ann/Bo, Ann/Bo, Bo/Ann. -/
def exThreeGames : List Game :=
  [{ board := board9, result := "Ann wins",
     players := { X := "Ann", O := "Bo" }, timestamp := 1 },
   { board := board9, result := "Draw",
     players := { X := "Ann", O := "Bo" }, timestamp := 2 },
   { board := board9, result := "Bo wins",
     players := { X := "Bo", O := "Ann" }, timestamp := 3 }]

/-- The "Ann vs Bo" group computed for `exThreeGames`. -/
def exG3 : PairingGroup :=
  { title := "Ann vs Bo",
    data := [{ toGame := { board := board9, result := "Ann wins",
                           players := { X := "Ann", O := "Bo" }, timestamp := 1 },
               gameNumber := "Game 1" },
             { toGame := { board := board9, result := "Draw",
                           players := { X := "Ann", O := "Bo" }, timestamp := 2 },
               gameNumber := "Game 2" }],
    stats := [("Ann", 1), ("Bo", 0), ("Draws", 1)] }

/-- C3: each group's stats increment the counter keyed by the group's X-name
on `result = "<record's X> wins"`, the O-name counter on
`result = "<record's O> wins"` (else-if), and `Draws` otherwise, the X/O
counter keys being the first game's trimmed names; on the specification's
three-game example the output is exactly the two groups "Ann vs Bo"
(Game 1, Game 2; Ann 1, Bo 0, Draws 1) and "Bo vs Ann" (1 game; Bo 1,
Ann 0, Draws 0). -/
theorem groupStats_correct (games : List Game) :
    (∀ G ∈ groupGamesByPlayers games,
      G.stats =
        jsObjInsert (jsObjInsert (jsObjInsert []
          (((dataGames G).headD default).players.X) (xWinCount (dataGames G)))
          (((dataGames G).headD default).players.O) (oWinCount (dataGames G)))
          "Draws" (drawCount (dataGames G)))
  ∧ (groupGamesByPlayers exThreeGames).map
      (fun G => (G.title, G.data.map (fun n => n.gameNumber), G.stats)) =
      [("Ann vs Bo", ["Game 1", "Game 2"], [("Ann", 1), ("Bo", 0), ("Draws", 1)]),
       ("Bo vs Ann", ["Game 1"], [("Bo", 1), ("Ann", 0), ("Draws", 0)])] :=
  ⟨groupStats_char games, by decide⟩

/-- Witness for C3: the "Ann vs Bo" group of the example evaluates to the
claimed stats via the general statement. -/
theorem groupStats_correct_witness :
    exG3.stats = [("Ann", 1), ("Bo", 0), ("Draws", 1)] :=
  ((groupStats_correct exThreeGames).1 exG3 (by decide)).trans (by decide)

theorem counts_partition (d : List Game) :
    xWinCount d + oWinCount d + drawCount d = d.length := by
  induction d with
  | nil => rfl
  | cons g rest ih =>
    rw [List.length_cons, oWinCount_cons, drawCount_cons]
    by_cases hX : g.result = g.players.X ++ " wins"
    · rw [xWinCount_cons_pos g rest hX,
        if_neg (fun hh => hh.1 hX), if_neg (fun hh => hh.1 hX)]
      omega
    · by_cases hO : g.result = g.players.O ++ " wins"
      · rw [xWinCount_cons_neg g rest hX, if_pos ⟨hX, hO⟩, if_neg (fun hh => hh.2 hO)]
        omega
      · rw [xWinCount_cons_neg g rest hX, if_neg (fun hh => hO hh.2), if_pos ⟨hX, hO⟩]
        omega

/-- A game whose players share one name, colliding the stats keys. -/
def collisionGame : Game :=
  { board := board9, result := "p wins", players := { X := "p", O := "p" }, timestamp := 1 }

/-- C10: when a group's trimmed X-name, O-name and "Draws" are pairwise
distinct, the stats values sum to the group's record count; when the names
collide (X = O here) the object keys collide and the accounting breaks —
the single "p wins" record yields stats summing to 0. -/
theorem stats_sum_correct (games : List Game) :
    (∀ G ∈ groupGamesByPlayers games,
      ((dataGames G).headD default).players.X ≠ ((dataGames G).headD default).players.O →
      ((dataGames G).headD default).players.X ≠ "Draws" →
      ((dataGames G).headD default).players.O ≠ "Draws" →
      (G.stats.map Prod.snd).sum = G.data.length)
  ∧ (groupGamesByPlayers [collisionGame]).map
      (fun G => ((G.stats.map Prod.snd).sum, G.data.length)) = [(0, 1)] := by
  constructor
  · intro G hG hxo hxd hod
    rw [groupStats_char games G hG]
    set x := ((dataGames G).headD default).players.X with hxdef
    set o := ((dataGames G).headD default).players.O with hodef
    set cx := xWinCount (dataGames G) with hcx
    set co := oWinCount (dataGames G) with hco
    set cd := drawCount (dataGames G) with hcd
    have e2 : jsObjInsert [(x, cx)] o co = [(x, cx), (o, co)] := by
      simp [jsObjInsert, hxo]
    have e3 : jsObjInsert [(x, cx), (o, co)] "Draws" cd =
        [(x, cx), (o, co), ("Draws", cd)] := by
      simp [jsObjInsert, hxd, hod]
    rw [show jsObjInsert ([] : List (String × Nat)) x cx = [(x, cx)] from rfl, e2, e3]
    show cx + (co + (cd + 0)) = G.data.length
    have hpart := counts_partition (dataGames G)
    have hlen : (dataGames G).length = G.data.length := List.length_map _ _
    rw [hcx, hco, hcd]
    omega
  · decide

/-- Witness for C10: the "Ann vs Bo" example group has pairwise-distinct
stats keys and its stats values sum to its two records. -/
theorem stats_sum_correct_witness :
    (exG3.stats.map Prod.snd).sum = exG3.data.length :=
  (stats_sum_correct exThreeGames).1 exG3 (by decide) (by decide) (by decide) (by decide)

theorem countP_partition {α : Type} (p : α → Bool) (l : List α) :
    l.countP p + l.countP (fun a => ! p a) = l.length := by
  induction l with
  | nil => rfl
  | cons a l ih =>
    rw [List.countP_cons, List.countP_cons]
    cases hp : p a <;> simp [hp] <;> omega

/-- C7: deleting by a timestamp present exactly once yields N-1 records,
preserves the relative order of the rest (sublist of the original), keeps
every record with a different timestamp, and keeps no record with the given
timestamp. -/
theorem handleDeleteGame_correct (games : List Game) (t : Int)
    (h : games.countP (fun g => decide (g.timestamp = t)) = 1) :
    (handleDeleteGame games t).length + 1 = games.length
  ∧ (handleDeleteGame games t).Sublist games
  ∧ (∀ g ∈ games, g.timestamp ≠ t → g ∈ handleDeleteGame games t)
  ∧ (∀ g ∈ handleDeleteGame games t, g.timestamp ≠ t) := by
  refine ⟨?_, List.filter_sublist _, ?_, ?_⟩
  · unfold handleDeleteGame
    rw [← List.countP_eq_length_filter]
    have hpart := countP_partition (fun g => decide (g.timestamp = t)) games
    have hco : games.countP (fun g => decide (g.timestamp ≠ t)) =
        games.countP (fun g => ! decide (g.timestamp = t)) := by
      apply List.countP_congr
      intro g _
      simp
    rw [hco]
    omega
  · intro g hg hne
    unfold handleDeleteGame
    rw [List.mem_filter]
    exact ⟨hg, by simpa using hne⟩
  · intro g hg
    unfold handleDeleteGame at hg
    rw [List.mem_filter] at hg
    simpa using hg.2

/-- Witness for C7: deleting timestamp 1 from a two-record store leaves one
record. -/
theorem handleDeleteGame_correct_witness :
    (handleDeleteGame exSwapGames 1).length + 1 = exSwapGames.length :=
  (handleDeleteGame_correct exSwapGames 1 (by decide)).1

/-- C8 (amended): the `saveGame` of `src/unnamed/part_000` persists the
record with both player names trimmed before storage; the
`src/app/(tabs)/index.tsx` variant stores the route-provided names as-is. -/
theorem saveGame_trims (playerX playerO : String) (boardState : List Cell)
    (result : String) (now : Int) (stored : List Game) :
    saveGame playerX playerO boardState result now stored =
      { board := boardState, result := result,
        players := { X := jsTrim playerX, O := jsTrim playerO },
        timestamp := now } :: stored := rfl

/-- Counterexample to C8 as stated: the `index.tsx` `saveGame` persists
" Ann " unchanged, which is not the trimmed name "Ann". -/
theorem saveGameIndexTsx_untrimmed :
    ((saveGameIndexTsx " Ann " "Bo" board9 "Draw" 0 []).map (fun g => g.players.X) =
      [" Ann "])
  ∧ jsTrim " Ann " = "Ann" ∧ (" Ann " : String) ≠ "Ann" :=
  ⟨rfl, by decide, by decide⟩

/-- Two games of different pairings, used by the rename examples. -/
def exRenameGames : List Game :=
  [{ board := board9, result := "Ann wins",
     players := { X := "Ann", O := "Bo" }, timestamp := 1 },
   { board := board9, result := "Draw",
     players := { X := "Cat", O := "Dog" }, timestamp := 2 }]

theorem gameKey_ne_empty (g : Game) : gameKey g ≠ "" := by
  unfold gameKey
  intro h
  have hd : ((jsTrim g.players.X).data ++ " vs ".data) ++ (jsTrim g.players.O).data =
      ([] : List Char) := congrArg String.data h
  rcases List.append_eq_nil.mp hd with ⟨hab, -⟩
  rcases List.append_eq_nil.mp hab with ⟨-, hb⟩
  exact absurd hb (by decide)

theorem group_title_ne_empty (games : List Game) :
    ∀ G ∈ groupGamesByPlayers games, G.title ≠ "" := by
  intro G hG
  have ht : G.title ∈ (groupGamesByPlayers games).map PairingGroup.title :=
    List.mem_map_of_mem _ hG
  rw [groupGamesByPlayers_titles] at ht
  have ht2 : G.title ∈ games.map gameKey :=
    ((mem_firstSeenAux (games.map gameKey) [] G.title).mp ht).1
  rw [List.mem_map] at ht2
  obtain ⟨g, _, hg⟩ := ht2
  rw [← hg]
  exact gameKey_ne_empty g

/-- C6: the rename validation fails with `EmptyTitleError` exactly when the
new title trims to empty, with `DuplicateTitleError` exactly when the
trimmed title equals an existing group title other than `oldTitle`, and on
any validation failure the games list is left unchanged. -/
theorem handleSaveEditTitle_validation (games : List Game) (oldTitle newTitle : String) :
    (handleSaveEditTitle games oldTitle newTitle = .error .emptyTitle ↔
      jsTrim newTitle = "")
  ∧ (handleSaveEditTitle games oldTitle newTitle = .error .duplicateTitle ↔
      ∃ G ∈ groupGamesByPlayers games, G.title = jsTrim newTitle ∧ G.title ≠ oldTitle)
  ∧ (∀ e, handleSaveEditTitle games oldTitle newTitle = .error e →
      gamesAfterTitleEdit games oldTitle newTitle = games) := by
  have hnoop : ∀ e, handleSaveEditTitle games oldTitle newTitle = .error e →
      gamesAfterTitleEdit games oldTitle newTitle = games := by
    intro e he
    unfold gamesAfterTitleEdit
    rw [he]
  refine ⟨?_, ?_, hnoop⟩
  · by_cases h1 : jsTrim newTitle = ""
    · simp only [handleSaveEditTitle, if_pos h1]
      simp [h1]
    · simp only [handleSaveEditTitle, if_neg h1]
      refine iff_of_false ?_ h1
      split_ifs with h2 h3
      · intro h; simp at h
      · intro h; simp at h
      · intro h; simp at h
  · by_cases h1 : jsTrim newTitle = ""
    · simp only [handleSaveEditTitle, if_pos h1]
      refine iff_of_false (by intro h; simp at h) ?_
      rintro ⟨G, hG, htitle, -⟩
      exact group_title_ne_empty games G hG (htitle.trans h1)
    · simp only [handleSaveEditTitle, if_neg h1]
      by_cases h2 : (groupGamesByPlayers games).any
          (fun G => decide (G.title = jsTrim newTitle ∧ G.title ≠ oldTitle)) = true
      · rw [if_pos h2]
        refine iff_of_true rfl ?_
        obtain ⟨G, hG, hd⟩ := List.any_eq_true.mp h2
        exact ⟨G, hG, of_decide_eq_true hd⟩
      · rw [if_neg h2]
        refine iff_of_false ?_ ?_
        · split_ifs with h3
          · intro h; simp at h
          · intro h; simp at h
        · rintro ⟨G, hG, ht, hne⟩
          exact h2 (List.any_eq_true.mpr ⟨G, hG, decide_eq_true ⟨ht, hne⟩⟩)

/-- Witness for C6: a blank title gives `EmptyTitleError`; renaming
"Ann vs Bo" to the other group's title "Cat vs Dog" gives
`DuplicateTitleError` and leaves the games unchanged. -/
theorem handleSaveEditTitle_validation_witness :
    handleSaveEditTitle exRenameGames "Ann vs Bo" " " = .error .emptyTitle
  ∧ handleSaveEditTitle exRenameGames "Ann vs Bo" "Cat vs Dog" = .error .duplicateTitle
  ∧ gamesAfterTitleEdit exRenameGames "Ann vs Bo" "Cat vs Dog" = exRenameGames := by
  refine ⟨?_, ?_, ?_⟩
  · exact (handleSaveEditTitle_validation exRenameGames "Ann vs Bo" " ").1.mpr (by decide)
  · exact (handleSaveEditTitle_validation exRenameGames "Ann vs Bo" "Cat vs Dog").2.1.mpr
      (by decide)
  · exact (handleSaveEditTitle_validation exRenameGames "Ann vs Bo" "Cat vs Dog").2.2
      .duplicateTitle
      ((handleSaveEditTitle_validation exRenameGames "Ann vs Bo" "Cat vs Dog").2.1.mpr
        (by decide))

/-- C4 (amended): given that the empty-title and duplicate-title checks
pass, the rename fails with `MalformedTitleError` iff the first part of
splitting the trimmed title on " vs " is empty or the second part is missing
or empty.  Parts beyond the second are ignored, so a title splitting into
three non-empty parts is accepted (see the counterexample). -/
theorem handleSaveEditTitle_malformed_iff (games : List Game) (oldTitle newTitle : String)
    (h1 : jsTrim newTitle ≠ "")
    (h2 : ¬ ∃ G ∈ groupGamesByPlayers games,
      G.title = jsTrim newTitle ∧ G.title ≠ oldTitle) :
    handleSaveEditTitle games oldTitle newTitle = .error .malformedTitle ↔
      ((jsSplitOn (jsTrim newTitle) " vs ").getD 0 "" = "" ∨
        (jsSplitOn (jsTrim newTitle) " vs ").getD 1 "" = "") := by
  simp only [handleSaveEditTitle, if_neg h1]
  split_ifs with hAny h3
  · refine absurd ?_ h2
    obtain ⟨G, hG, hd⟩ := List.any_eq_true.mp hAny
    exact ⟨G, hG, of_decide_eq_true hd⟩
  · exact iff_of_true rfl h3
  · refine iff_of_false ?_ h3
    intro h
    simp at h

/-- Counterexample to C4 as stated: "A vs B vs C" splits into three
non-empty parts — not exactly two — yet the rename is accepted rather than
failing with `MalformedTitleError`. -/
theorem handleSaveEditTitle_extra_parts :
    handleSaveEditTitle [] "Ann vs Bo" "A vs B vs C" = .ok []
  ∧ jsSplitOn (jsTrim "A vs B vs C") " vs " = ["A", "B", "C"] :=
  ⟨rfl, by decide⟩

/-- Witness for C4: "AnnBo" has no " vs " separator, so its second split
part is missing and the rename fails with `MalformedTitleError`. -/
theorem handleSaveEditTitle_malformed_iff_witness :
    handleSaveEditTitle [] "Ann vs Bo" "AnnBo" = .error .malformedTitle :=
  (handleSaveEditTitle_malformed_iff [] "Ann vs Bo" "AnnBo" (by decide) (by decide)).mpr
    (by decide)

/-- C5: on successful rename, the result is exactly the input list with
each record whose trimmed X and O names equal `oldTitle`'s two split parts
rewritten to the trimmed new names, and every other record returned
unchanged — order and length preserved. -/
theorem handleSaveEditTitle_success (games : List Game) (oldTitle newTitle : String)
    (gs : List Game) (h : handleSaveEditTitle games oldTitle newTitle = .ok gs) :
    gs = games.map (fun g =>
      if jsTrim g.players.X = (jsSplitOn oldTitle " vs ").getD 0 "" ∧
          (jsSplitOn oldTitle " vs ")[1]? = some (jsTrim g.players.O)
      then { g with players :=
        { X := jsTrim ((jsSplitOn (jsTrim newTitle) " vs ").getD 0 ""),
          O := jsTrim ((jsSplitOn (jsTrim newTitle) " vs ").getD 1 "") } }
      else g) := by
  simp only [handleSaveEditTitle] at h
  split_ifs at h
  exact (Except.ok.inj h).symm

/-- The records of `exRenameGames` after renaming "Ann vs Bo" to
"Zed vs Quo". -/
def exRenamedGames : List Game :=
  [{ board := board9, result := "Ann wins",
     players := { X := "Zed", O := "Quo" }, timestamp := 1 },
   { board := board9, result := "Draw",
     players := { X := "Cat", O := "Dog" }, timestamp := 2 }]

/-- Witness for C5: renaming "Ann vs Bo" to "Zed vs Quo" rewrites exactly
the Ann/Bo record and leaves the Cat/Dog record unchanged. -/
theorem handleSaveEditTitle_success_witness :
    exRenamedGames = exRenameGames.map (fun g =>
      if jsTrim g.players.X = (jsSplitOn "Ann vs Bo" " vs ").getD 0 "" ∧
          (jsSplitOn "Ann vs Bo" " vs ")[1]? = some (jsTrim g.players.O)
      then { g with players :=
        { X := jsTrim ((jsSplitOn (jsTrim "Zed vs Quo") " vs ").getD 0 ""),
          O := jsTrim ((jsSplitOn (jsTrim "Zed vs Quo") " vs ").getD 1 "") } }
      else g) :=
  handleSaveEditTitle_success exRenameGames "Ann vs Bo" "Zed vs Quo" exRenamedGames rfl

end TicTacToe
